import Mathlib

/-
Verification of the hotkey-tag-navigation parser
(src/hotkey-tag-navigation/src/parser.ts).

The text buffer is modelled as a list of characters and offsets as
integers (the source uses JavaScript numbers that can go to -1, e.g.
`cursorIndex = posToOffset(cursorStartPos) - 1` and the `-1` sentinel
fields of TagStruct).  JavaScript string primitives used by the source
(`startsWith(pre, i)`, `substring(a, b)`) are modelled with their
clamping behaviour.  The Obsidian `Editor` collaborator is modelled by
the operations the parser consumes: full-text read, selection read,
selection set, cursor set and range replace, all in linear offsets
(the source round-trips through line/column positions via
`posToOffset`/`offsetToPos`, which is the identity on linear offsets).
-/

abbrev Chars := List Char

/-- JavaScript `content.startsWith(pre, i)`: exact substring match of `pre`
at position `i` (negative positions clamp to 0, positions past the end
match only the empty string). -/
def startsWithAt (s pre : Chars) (i : Int) : Bool :=
  pre.isPrefixOf (s.drop i.toNat)

/-- JavaScript `s.substring(a, b)`: clamps both indices into `[0, length]`
and swaps them when `a > b`. -/
def jsSubstring (s : Chars) (a b : Int) : Chars :=
  let a2 := min a.toNat s.length
  let b2 := min b.toNat s.length
  (s.take (max a2 b2)).drop (min a2 b2)

/-- The `TagStruct` interface of parser.ts. -/
structure TagStruct where
  parentStart : Int
  parentEnd : Int
  innerStart : Int
  innerEnd : Int
  content : Chars
  openingTagPos : List Int
  closingTagPos : List Int
deriving DecidableEq

/-- The slice of the Obsidian editor consumed by the parser: the text
buffer and the current selection, as linear offsets
(`selFrom ≤ selTo` in Obsidian; nothing below depends on it). -/
structure Editor where
  content : Chars
  selFrom : Nat
  selTo : Nat
deriving DecidableEq

/-- `editor.setCursor(editor.offsetToPos(off))`: collapse the selection. -/
def Editor.setCursor (e : Editor) (off : Nat) : Editor :=
  { e with selFrom := off, selTo := off }

/-- `editor.setSelection(offsetToPos a, offsetToPos b)`; `offsetToPos`
clamps offsets into the document. -/
def Editor.setSelection (e : Editor) (a b : Int) : Editor :=
  { e with selFrom := min a.toNat e.content.length,
           selTo := min b.toNat e.content.length }

/-- `editor.replaceRange(s, offsetToPos a, offsetToPos b)`. -/
def Editor.replaceRange (e : Editor) (s : Chars) (a b : Int) : Editor :=
  let a2 := min a.toNat e.content.length
  let b2 := min b.toNat e.content.length
  { e with content := e.content.take a2 ++ s ++ e.content.drop b2 }

/-- The `Parser` class state: the two delimiters, the mutable
`tagStruct` field and the consumed `settings.wrapAroundEnabled` flag. -/
structure Parser where
  openingDelimiter : Chars
  closingDelimiter : Chars
  tagStruct : Option TagStruct
  wrapAroundEnabled : Bool
deriving DecidableEq

def Parser.reset (p : Parser) : Parser :=
  { p with tagStruct := none }

def Parser.setOpeningDelimiter (p : Parser) (d : Chars) : Parser :=
  { p with openingDelimiter := d }

def Parser.setClosingDelimiter (p : Parser) (d : Chars) : Parser :=
  { p with closingDelimiter := d }

def Parser.getTagPosition (p : Parser) : Option (Int × Int) :=
  match p.tagStruct with
  | some t => some (t.parentStart, t.parentEnd)
  | none => none

def Parser.getTagContent (p : Parser) : Option Chars :=
  match p.tagStruct with
  | some t => some t.content
  | none => none

def Parser.getInnerTagPosition (p : Parser) : Option (Int × Int) :=
  match p.tagStruct with
  | some t => some (t.innerStart, t.innerEnd)
  | none => none

def Parser.getInnerTagContent (p : Parser) : Option Chars :=
  match p.tagStruct with
  | some t => some t.content
  | none => none

/-- `highlightTag`: select `parentStart..parentEnd` when a match is held. -/
def Parser.highlightTag (p : Parser) (e : Editor) : Bool × Editor :=
  match p.tagStruct with
  | some t => (true, e.setSelection t.parentStart t.parentEnd)
  | none => (false, e)

/-- `highlightInnerTag`: select `innerStart..innerEnd` when a match is held. -/
def Parser.highlightInnerTag (p : Parser) (e : Editor) : Bool × Editor :=
  match p.tagStruct with
  | some t => (true, e.setSelection t.innerStart t.innerEnd)
  | none => (false, e)

/-- `acceptDefaultText`: replace the span `parentStart..parentEnd` with the
stored `content`, then select around the inserted content.  Returns the
success flag, the parser state and the editor after the call.  (The source
does not modify `this.tagStruct` here.) -/
def Parser.acceptDefaultText (p : Parser) (e : Editor) : Bool × Parser × Editor :=
  match p.tagStruct with
  | some t =>
      let innerContent := t.content
      let e1 := e.replaceRange innerContent t.parentStart t.parentEnd
      let startPos : Int := t.innerStart - p.openingDelimiter.length
      let endPos : Int := t.innerEnd - p.closingDelimiter.length
      (true, p, e1.setSelection startPos endPos)
  | none => (false, p, e)

/-- Result of one iteration of the `for` loop body in `Parser.parse`:
either `return true` with the completed tag, or fall through to the next
iteration with the updated `initTag` flag and `tagStruct`. -/
inductive StepResult where
  | done (t : TagStruct)
  | cont (initTag : Bool) (ts : Option TagStruct)
deriving DecidableEq

/-- One iteration of the scan loop body of `Parser.parse` (parser.ts
lines 161-262), at index `i`, for delimiters `O`/`C` over `content`. -/
def parseStep (O C content : Chars) (forward : Bool) (i : Int)
    (initTag : Bool) (ts : Option TagStruct) : StepResult :=
  if startsWithAt content O i then
    if !initTag && !forward then
      .cont initTag ts
    else if !initTag && forward then
      .cont true (some
        { parentStart := i, parentEnd := -1,
          innerStart := i + O.length, innerEnd := -1, content := [],
          openingTagPos := [i], closingTagPos := [] })
    else
      match ts with
      | none => .cont initTag none
      | some t0 =>
        let t1 := { t0 with openingTagPos := t0.openingTagPos ++ [i] }
        let t2 := if !forward then
            { t1 with innerStart := i + O.length, parentStart := i }
          else t1
        if 0 < t2.closingTagPos.length then
          let t3 := { t2 with openingTagPos := t2.openingTagPos.dropLast,
                              closingTagPos := t2.closingTagPos.dropLast }
          if t3.openingTagPos.length = 0 ∧ t3.closingTagPos.length = 0 then
            .done { t3 with content := jsSubstring content t3.innerStart t3.innerEnd }
          else .cont initTag (some t3)
        else .cont initTag (some t2)
  else if startsWithAt content C i then
    if !initTag && forward then
      .cont initTag ts
    else if !initTag && !forward then
      .cont true (some
        { parentStart := -1, parentEnd := i + C.length,
          innerStart := -1, innerEnd := i, content := [],
          openingTagPos := [], closingTagPos := [i] })
    else
      match ts with
      | none => .cont initTag none
      | some t0 =>
        let t1 := { t0 with closingTagPos := t0.closingTagPos ++ [i] }
        let t2 := if forward then
            { t1 with innerEnd := i, parentEnd := i + C.length }
          else t1
        if 0 < t2.openingTagPos.length then
          let t3 := { t2 with closingTagPos := t2.closingTagPos.dropLast,
                              openingTagPos := t2.openingTagPos.dropLast }
          if t3.closingTagPos.length = 0 ∧ t3.openingTagPos.length = 0 then
            .done { t3 with content := jsSubstring content t3.innerStart t3.innerEnd }
          else .cont initTag (some t3)
        else .cont initTag (some t2)
  else .cont initTag ts

/-- The loop condition `forward ? i < content.length : i >= 0`. -/
def loopCond : Bool → Int → Int → Prop
  | true, len, i => i < len
  | false, _, i => 0 ≤ i

instance (f : Bool) (n i : Int) : Decidable (loopCond f n i) := by
  cases f <;> simp only [loopCond] <;> infer_instance

/-- The scan loop of `Parser.parse`
(`for (let i = cursorIndex; forward ? i < content.length : i >= 0; i += direction)`),
returning the `return true`/fall-through flag together with the final
`tagStruct` field. -/
def parseLoop (O C content : Chars) (forward : Bool) (i : Int)
    (initTag : Bool) (ts : Option TagStruct) : Bool × Option TagStruct :=
  if loopCond forward (content.length : Int) i then
    match parseStep O C content forward i initTag ts with
    | .done t => (true, some t)
    | .cont initTag2 ts2 =>
        parseLoop O C content forward (i + (if forward then 1 else -1)) initTag2 ts2
  else
    (false, ts)
termination_by if forward then ((content.length : Int) - i).toNat else (i + 1).toNat
decreasing_by cases forward <;> simp_all [loopCond] <;> omega

/-- The scan part of `Parser.parse`: compute the start index
(`posToOffset(cursorEndPos)` forward, `posToOffset(cursorStartPos) - 1`
backward) and walk the document; `initTag` starts `false` and the loop
mutates the parser's current `tagStruct` field. -/
def Parser.scan (p : Parser) (e : Editor) (forward : Bool) : Bool × Option TagStruct :=
  let content := e.content
  let cursorIndex : Int := if !forward then (e.selFrom : Int) - 1 else (e.selTo : Int)
  parseLoop p.openingDelimiter p.closingDelimiter content forward cursorIndex false p.tagStruct

/-- `Parser.parse(editor, forward, wrapCheck)` (parser.ts lines 132-282):
the recursion-guard check, the scan loop, and the wrap-around retry that
moves the cursor to the opposite boundary and recurses once with
`wrapCheck = true`.  Returns the boolean result together with the parser
and editor state after the call. -/
def Parser.parse (p : Parser) (e : Editor) (forward : Bool) (wrapCheck : Bool) :
    Bool × Parser × Editor :=
  if wrapCheck ∧ p.tagStruct = none then
    (false, p, e)
  else
    match p.scan e forward with
    | (found, ts) =>
      let p2 : Parser := { p with tagStruct := ts }
      if found then
        (true, p2, e)
      else if h : ts = none ∧ p.wrapAroundEnabled = true ∧ wrapCheck = false then
        if forward then
          Parser.parse p2 (e.setCursor 0) true true
        else
          Parser.parse p2 (e.setCursor e.content.length) false true
      else
        (false, { p2 with tagStruct := none }, e)
termination_by if wrapCheck then 0 else 1
decreasing_by all_goals obtain ⟨h1, h2, h3⟩ := h; subst h3; simp

/-! ### Basic facts about the JavaScript string primitives -/

lemma isPrefixOf_length_le : ∀ (a b : Chars), a.isPrefixOf b = true → a.length ≤ b.length := by
  intro a
  induction a with
  | nil => intro b _; simp
  | cons x xs ih =>
    intro b h
    cases b with
    | nil => simp [List.isPrefixOf] at h
    | cons y ys =>
      simp only [List.isPrefixOf, Bool.and_eq_true] at h
      have := ih ys h.2
      simp only [List.length_cons]
      omega

lemma startsWithAt_toNat_lt {s pre : Chars} {i : Int}
    (h : startsWithAt s pre i = true) (hpre : pre ≠ []) : i.toNat < s.length := by
  unfold startsWithAt at h
  have hl := isPrefixOf_length_le _ _ h
  have hp : 0 < pre.length := List.length_pos.mpr hpre
  simp only [List.length_drop] at hl
  omega

lemma startsWithAt_lt {s pre : Chars} {i : Int} (hi : 0 ≤ i)
    (h : startsWithAt s pre i = true) (hpre : pre ≠ []) : i < (s.length : Int) := by
  have := startsWithAt_toNat_lt h hpre
  omega

/-- Occurrence sets of a nonempty pattern are decidably characterised by
their in-range natural positions. -/
lemma onlyAt_of_bounded {s d : Chars} (hd : d ≠ []) (p : Int)
    (h : ∀ n : Nat, n < s.length → startsWithAt s d (n : Int) = true → (n : Int) = p) :
    ∀ k : Int, 0 ≤ k → startsWithAt s d k = true → k = p := by
  intro k hk hsw
  have h1 : k.toNat < s.length := startsWithAt_toNat_lt hsw hd
  have h2 : startsWithAt s d ((k.toNat : Nat) : Int) = true := by
    have : ((k.toNat : Nat) : Int) = k := by omega
    rwa [this]
  have := h k.toNat h1 h2
  omega

lemma onlyAt2_of_bounded {s d : Chars} (hd : d ≠ []) (p q : Int)
    (h : ∀ n : Nat, n < s.length → startsWithAt s d (n : Int) = true →
      (n : Int) = p ∨ (n : Int) = q) :
    ∀ k : Int, 0 ≤ k → startsWithAt s d k = true → k = p ∨ k = q := by
  intro k hk hsw
  have h1 : k.toNat < s.length := startsWithAt_toNat_lt hsw hd
  have h2 : startsWithAt s d ((k.toNat : Nat) : Int) = true := by
    have : ((k.toNat : Nat) : Int) = k := by omega
    rwa [this]
  have := h k.toNat h1 h2
  omega

/-! ### Unfolding, skipping and failure lemmas for the scan loop -/

lemma parseLoop_cond_eq {O C content : Chars} {forward : Bool} {i : Int} {b : Bool}
    {ts : Option TagStruct} (h : loopCond forward (content.length : Int) i) :
    parseLoop O C content forward i b ts =
      (match parseStep O C content forward i b ts with
       | .done t => (true, some t)
       | .cont b2 ts2 =>
           parseLoop O C content forward (i + (if forward then 1 else -1)) b2 ts2) := by
  rw [parseLoop.eq_def, if_pos h]

lemma parseLoop_exit {O C content : Chars} {forward : Bool} {i : Int} {b : Bool}
    {ts : Option TagStruct} (h : ¬ loopCond forward (content.length : Int) i) :
    parseLoop O C content forward i b ts = (false, ts) := by
  rw [parseLoop.eq_def, if_neg h]

lemma parseStep_noMatch {O C content : Chars} {forward : Bool} {i : Int} {b : Bool}
    {ts : Option TagStruct} (hO : startsWithAt content O i = false)
    (hC : startsWithAt content C i = false) :
    parseStep O C content forward i b ts = .cont b ts := by
  simp [parseStep, hO, hC]

lemma parseStep_preInitF {O C content : Chars} {i : Int} {ts : Option TagStruct}
    (hO : startsWithAt content O i = false) :
    parseStep O C content true i false ts = .cont false ts := by
  cases hC : startsWithAt content C i <;> simp [parseStep, hO, hC]

lemma parseStep_preInitB {O C content : Chars} {i : Int} {ts : Option TagStruct}
    (hC : startsWithAt content C i = false) :
    parseStep O C content false i false ts = .cont false ts := by
  cases hO : startsWithAt content O i <;> simp [parseStep, hO, hC]

lemma parseLoop_skipF {O C content : Chars} {b : Bool} {ts : Option TagStruct} :
    ∀ (n : Nat) (i j : Int), (j - i).toNat = n → i ≤ j →
    (∀ k, i ≤ k → k < j →
      startsWithAt content O k = false ∧ startsWithAt content C k = false) →
    parseLoop O C content true i b ts = parseLoop O C content true j b ts := by
  intro n
  induction n with
  | zero =>
    intro i j hn hij _
    have : i = j := by omega
    rw [this]
  | succ n ih =>
    intro i j hn hij hno
    have hij2 : i < j := by omega
    by_cases hc : loopCond true (content.length : Int) i
    · rw [parseLoop_cond_eq hc,
        parseStep_noMatch (hno i le_rfl hij2).1 (hno i le_rfl hij2).2]
      have := ih (i + 1) j (by omega) (by omega) (fun k hk hk2 => hno k (by omega) hk2)
      simpa using this
    · have hlen : (content.length : Int) ≤ i := by
        simp only [loopCond, not_lt] at hc; exact hc
      have hcj : ¬ loopCond true (content.length : Int) j := by
        simp only [loopCond, not_lt]; omega
      rw [parseLoop_exit hc, parseLoop_exit hcj]

lemma parseLoop_skipB {O C content : Chars} {b : Bool} {ts : Option TagStruct} :
    ∀ (n : Nat) (i j : Int), (i - j).toNat = n → j ≤ i →
    (∀ k, j < k → k ≤ i →
      startsWithAt content O k = false ∧ startsWithAt content C k = false) →
    parseLoop O C content false i b ts = parseLoop O C content false j b ts := by
  intro n
  induction n with
  | zero =>
    intro i j hn hij _
    have : i = j := by omega
    rw [this]
  | succ n ih =>
    intro i j hn hij hno
    have hij2 : j < i := by omega
    by_cases hc : loopCond false (content.length : Int) i
    · rw [parseLoop_cond_eq hc,
        parseStep_noMatch (hno i hij2 le_rfl).1 (hno i hij2 le_rfl).2]
      have := ih (i - 1) j (by omega) (by omega) (fun k hk hk2 => hno k hk (by omega))
      simpa using this
    · have hneg : i < 0 := by
        simp only [loopCond, not_le] at hc; exact hc
      have hcj : ¬ loopCond false (content.length : Int) j := by
        simp only [loopCond, not_le]; omega
      rw [parseLoop_exit hc, parseLoop_exit hcj]

lemma parseLoop_missF {O C content : Chars} {ts : Option TagStruct} :
    ∀ (n : Nat) (i : Int), ((content.length : Int) - i).toNat = n →
    (∀ k, i ≤ k → startsWithAt content O k = false) →
    parseLoop O C content true i false ts = (false, ts) := by
  intro n
  induction n with
  | zero =>
    intro i hn _
    have hc : ¬ loopCond true (content.length : Int) i := by
      simp only [loopCond, not_lt]; omega
    exact parseLoop_exit hc
  | succ n ih =>
    intro i hn hno
    have hc : loopCond true (content.length : Int) i := by
      simp only [loopCond]; omega
    rw [parseLoop_cond_eq hc, parseStep_preInitF (hno i le_rfl)]
    have := ih (i + 1) (by omega) (fun k hk => hno k (by omega))
    simpa using this

lemma parseLoop_missB {O C content : Chars} {ts : Option TagStruct} :
    ∀ (n : Nat) (i : Int), (i + 1).toNat = n →
    (∀ k, k ≤ i → startsWithAt content C k = false) →
    parseLoop O C content false i false ts = (false, ts) := by
  intro n
  induction n with
  | zero =>
    intro i hn _
    have hc : ¬ loopCond false (content.length : Int) i := by
      simp only [loopCond, not_le]; omega
    exact parseLoop_exit hc
  | succ n ih =>
    intro i hn hno
    have hc : loopCond false (content.length : Int) i := by
      simp only [loopCond]; omega
    rw [parseLoop_cond_eq hc, parseStep_preInitB (hno i le_rfl)]
    have := ih (i - 1) (by omega) (fun k hk => hno k (by omega))
    simpa using this

/-! ### Locating a unique balanced region -/

/-- The tag struct produced for a region whose opening delimiter sits at
`p` and whose closing delimiter sits at `c`. -/
def singleTag (O C content : Chars) (p c : Int) : TagStruct :=
  { parentStart := p, parentEnd := c + C.length,
    innerStart := p + O.length, innerEnd := c,
    content := jsSubstring content (p + O.length) c,
    openingTagPos := [], closingTagPos := [] }

/-- Forward scan over a text whose only opening-delimiter occurrence is at
`p` and whose only closing-delimiter occurrence is at `c ≥ p + |O|`,
started anywhere at or before `p`: the loop resolves exactly that region. -/
lemma parseLoop_singleF {O C content : Chars} {ts0 : Option TagStruct}
    (hO : O ≠ []) (hC : C ≠ []) {p c : Int} (hp0 : 0 ≤ p)
    (hOm : startsWithAt content O p = true) (hCm : startsWithAt content C c = true)
    (hpc : p + (O.length : Int) ≤ c)
    (hOonly : ∀ k : Int, 0 ≤ k → startsWithAt content O k = true → k = p)
    (hConly : ∀ k : Int, 0 ≤ k → startsWithAt content C k = true → k = c)
    {s : Int} (hs0 : 0 ≤ s) (hsp : s ≤ p) :
    parseLoop O C content true s false ts0 = (true, some (singleTag O C content p c)) := by
  have hOlen : 0 < (O.length : Int) := by
    have := List.length_pos.mpr hO; omega
  have hClen : 0 < (C.length : Int) := by
    have := List.length_pos.mpr hC; omega
  have hc0 : 0 ≤ c := by omega
  have hplen : p < (content.length : Int) := startsWithAt_lt hp0 hOm hO
  have hclen : c < (content.length : Int) := startsWithAt_lt hc0 hCm hC
  have hnoev : ∀ k : Int, 0 ≤ k → k ≠ p → k ≠ c →
      startsWithAt content O k = false ∧ startsWithAt content C k = false := by
    intro k hk hkp hkc
    constructor
    · cases hOk : startsWithAt content O k with
      | false => rfl
      | true => exact absurd (hOonly k hk hOk) hkp
    · cases hCk : startsWithAt content C k with
      | false => rfl
      | true => exact absurd (hConly k hk hCk) hkc
  have hOc : startsWithAt content O c = false := by
    cases hOk : startsWithAt content O c with
    | false => rfl
    | true => exact absurd (hOonly c hc0 hOk) (by omega)
  have hcondp : loopCond true (content.length : Int) p := by
    simp only [loopCond]; omega
  have hcondc : loopCond true (content.length : Int) c := by
    simp only [loopCond]; omega
  have hstep1 : parseStep O C content true p false ts0 =
      .cont true (some
        { parentStart := p, parentEnd := -1,
          innerStart := p + (O.length : Int), innerEnd := -1, content := [],
          openingTagPos := [p], closingTagPos := [] }) := by
    simp [parseStep, hOm]
  have hstep2 : parseStep O C content true c true (some
      { parentStart := p, parentEnd := -1,
        innerStart := p + (O.length : Int), innerEnd := -1, content := [],
        openingTagPos := [p], closingTagPos := [] }) =
      .done (singleTag O C content p c) := by
    simp [parseStep, hOc, hCm, singleTag]
  calc parseLoop O C content true s false ts0
      = parseLoop O C content true p false ts0 := by
        refine parseLoop_skipF (p - s).toNat s p (by omega) hsp ?_
        intro k hk hk2
        exact hnoev k (by omega) (by omega) (by omega)
    _ = parseLoop O C content true (p + 1) true (some
        { parentStart := p, parentEnd := -1,
          innerStart := p + (O.length : Int), innerEnd := -1, content := [],
          openingTagPos := [p], closingTagPos := [] }) := by
        rw [parseLoop_cond_eq hcondp, hstep1]
        rfl
    _ = parseLoop O C content true c true (some
        { parentStart := p, parentEnd := -1,
          innerStart := p + (O.length : Int), innerEnd := -1, content := [],
          openingTagPos := [p], closingTagPos := [] }) := by
        refine parseLoop_skipF (c - (p + 1)).toNat (p + 1) c (by omega) (by omega) ?_
        intro k hk hk2
        exact hnoev k (by omega) (by omega) (by omega)
    _ = (true, some (singleTag O C content p c)) := by
        rw [parseLoop_cond_eq hcondc, hstep2]

/-- Backward scan over a text whose only opening-delimiter occurrence is at
`p` and whose only closing-delimiter occurrence is at `c ≥ p + |O|`,
started anywhere at or after `c`: the loop resolves exactly that region. -/
lemma parseLoop_singleB {O C content : Chars} {ts0 : Option TagStruct}
    (hO : O ≠ []) (hC : C ≠ []) {p c : Int} (hp0 : 0 ≤ p)
    (hOm : startsWithAt content O p = true) (hCm : startsWithAt content C c = true)
    (hpc : p + (O.length : Int) ≤ c)
    (hOonly : ∀ k : Int, 0 ≤ k → startsWithAt content O k = true → k = p)
    (hConly : ∀ k : Int, 0 ≤ k → startsWithAt content C k = true → k = c)
    {s : Int} (hsc : c ≤ s) :
    parseLoop O C content false s false ts0 = (true, some (singleTag O C content p c)) := by
  have hOlen : 0 < (O.length : Int) := by
    have := List.length_pos.mpr hO; omega
  have hClen : 0 < (C.length : Int) := by
    have := List.length_pos.mpr hC; omega
  have hc0 : 0 ≤ c := by omega
  have hnoev : ∀ k : Int, 0 ≤ k → k ≠ p → k ≠ c →
      startsWithAt content O k = false ∧ startsWithAt content C k = false := by
    intro k hk hkp hkc
    constructor
    · cases hOk : startsWithAt content O k with
      | false => rfl
      | true => exact absurd (hOonly k hk hOk) hkp
    · cases hCk : startsWithAt content C k with
      | false => rfl
      | true => exact absurd (hConly k hk hCk) hkc
  have hOc : startsWithAt content O c = false := by
    cases hOk : startsWithAt content O c with
    | false => rfl
    | true => exact absurd (hOonly c hc0 hOk) (by omega)
  have hcondc : loopCond false (content.length : Int) c := by
    simp only [loopCond]; omega
  have hcondp : loopCond false (content.length : Int) p := by
    simp only [loopCond]; omega
  have hstep1 : parseStep O C content false c false ts0 =
      .cont true (some
        { parentStart := -1, parentEnd := c + (C.length : Int),
          innerStart := -1, innerEnd := c, content := [],
          openingTagPos := [], closingTagPos := [c] }) := by
    simp [parseStep, hOc, hCm]
  have hstep2 : parseStep O C content false p true (some
      { parentStart := -1, parentEnd := c + (C.length : Int),
        innerStart := -1, innerEnd := c, content := [],
        openingTagPos := [], closingTagPos := [c] }) =
      .done (singleTag O C content p c) := by
    simp [parseStep, hOm, singleTag]
  calc parseLoop O C content false s false ts0
      = parseLoop O C content false c false ts0 := by
        refine parseLoop_skipB (s - c).toNat s c (by omega) hsc ?_
        intro k hk hk2
        exact hnoev k (by omega) (by omega) (by omega)
    _ = parseLoop O C content false (c + -1) true (some
        { parentStart := -1, parentEnd := c + (C.length : Int),
          innerStart := -1, innerEnd := c, content := [],
          openingTagPos := [], closingTagPos := [c] }) := by
        rw [parseLoop_cond_eq hcondc, hstep1]
        rfl
    _ = parseLoop O C content false p true (some
        { parentStart := -1, parentEnd := c + (C.length : Int),
          innerStart := -1, innerEnd := c, content := [],
          openingTagPos := [], closingTagPos := [c] }) := by
        refine parseLoop_skipB (c - 1 - p).toNat (c + -1) p (by omega) (by omega) ?_
        intro k hk hk2
        exact hnoev k (by omega) (by omega) (by omega)
    _ = (true, some (singleTag O C content p c)) := by
        rw [parseLoop_cond_eq hcondp, hstep2]

/-! ### Behaviour of `Parser.parse` around the scan loop -/

lemma Parser.mk_tagStruct_none {p : Parser} (h : p.tagStruct = none) :
    { p with tagStruct := none } = p := by
  cases p
  simp_all

/-- A `parse` call with `wrapCheck = true` on a parser holding no match
state returns immediately (the recursion guard at the top of `parse`). -/
lemma parse_wrapTrue {p : Parser} {e : Editor} {fwd : Bool} (h : p.tagStruct = none) :
    Parser.parse p e fwd true = (false, p, e) := by
  rw [Parser.parse.eq_def]
  rw [if_pos ⟨rfl, h⟩]

/-- When the scan loop reports a completed tag, `parse` returns it. -/
lemma parse_scanFound {p : Parser} {e : Editor} {fwd : Bool} {ts : Option TagStruct}
    (h : p.scan e fwd = (true, ts)) :
    Parser.parse p e fwd false = (true, { p with tagStruct := ts }, e) := by
  rw [Parser.parse.eq_def]
  rw [if_neg (by simp), h]
  rfl

/-- When the scan loop falls through, `parse` reports `false` and leaves
no match state, whether or not the wrap-around branch is taken. -/
lemma parse_scanNotFound {p : Parser} {e : Editor} {fwd : Bool} {ts : Option TagStruct}
    (h : p.scan e fwd = (false, ts)) :
    (Parser.parse p e fwd false).1 = false ∧
      (Parser.parse p e fwd false).2.1.tagStruct = none := by
  rw [Parser.parse.eq_def]
  rw [if_neg (by simp), h]
  dsimp only
  by_cases h2 : ts = none ∧ p.wrapAroundEnabled = true ∧ (false : Bool) = false
  · rw [dif_pos h2]
    obtain ⟨h2a, h2b, -⟩ := h2
    subst h2a
    by_cases hf : fwd = true
    · subst hf
      rw [if_pos rfl, parse_wrapTrue rfl]
      simp
    · rw [if_neg hf, parse_wrapTrue rfl]
      simp
  · rw [dif_neg h2]
    simp

/-- A `parse` call that returns `true` got its result from the direct scan
(the wrap-around retry can never return `true`; see `parse_wrapTrue`). -/
lemma parse_true_elim {p : Parser} {e : Editor} {fwd wc : Bool}
    (h1 : (Parser.parse p e fwd wc).1 = true) :
    ∃ ts, p.scan e fwd = (true, ts) ∧
      Parser.parse p e fwd wc = (true, { p with tagStruct := ts }, e) := by
  rw [Parser.parse.eq_def] at h1 ⊢
  by_cases hg : wc = true ∧ p.tagStruct = none
  · rw [if_pos hg] at h1
    simp at h1
  · rw [if_neg hg] at h1 ⊢
    rcases hscan : p.scan e fwd with ⟨found, ts⟩
    rw [hscan] at h1
    dsimp only at h1 ⊢
    cases found with
    | true =>
      refine ⟨ts, rfl, ?_⟩
      simp
    | false =>
      rw [if_neg (by simp)] at h1
      by_cases h2 : ts = none ∧ p.wrapAroundEnabled = true ∧ wc = false
      · rw [dif_pos h2] at h1
        obtain ⟨h2a, -, -⟩ := h2
        subst h2a
        cases fwd with
        | true =>
          rw [if_pos rfl, parse_wrapTrue rfl] at h1
          simp at h1
        | false =>
          rw [if_neg (by simp), parse_wrapTrue rfl] at h1
          simp at h1
      · rw [dif_neg h2] at h1
        simp at h1

/-! ### The shape invariant of a resolved match -/

/-- The resolved-region shape asserted by the specification:
`parentStart < innerStart ≤ innerEnd < parentEnd`. -/
def GoodTag (t : TagStruct) : Prop :=
  t.parentStart < t.innerStart ∧ t.innerStart ≤ t.innerEnd ∧ t.innerEnd < t.parentEnd

/-- No closing-delimiter occurrence begins strictly inside an
opening-delimiter occurrence. -/
def NoOverlap (O C content : Chars) : Prop :=
  ∀ i j : Int, startsWithAt content O i = true → startsWithAt content C j = true →
    i < j → i + (O.length : Int) ≤ j

/-- Loop invariant of the forward scan: once `initTag` is set, the match
state records the position of the first opening delimiter found, and its
`innerEnd`/`parentEnd` fields, when set, come from a closing-delimiter
occurrence after it. -/
def InvF (O C content : Chars) (i : Int) (initTag : Bool) (ts : Option TagStruct) : Prop :=
  initTag = true → ∃ p0 t0, ts = some t0 ∧ startsWithAt content O p0 = true ∧ p0 < i ∧
    t0.parentStart = p0 ∧ t0.innerStart = p0 + (O.length : Int) ∧
    (t0.closingTagPos = [] ∨
      ∃ c0, startsWithAt content C c0 = true ∧ p0 < c0 ∧
        t0.innerEnd = c0 ∧ t0.parentEnd = c0 + (C.length : Int))

/-- Loop invariant of the backward scan, symmetric to `InvF`. -/
def InvB (O C content : Chars) (i : Int) (initTag : Bool) (ts : Option TagStruct) : Prop :=
  initTag = true → ∃ c0 t0, ts = some t0 ∧ startsWithAt content C c0 = true ∧ i < c0 ∧
    t0.parentEnd = c0 + (C.length : Int) ∧ t0.innerEnd = c0 ∧
    (t0.openingTagPos = [] ∨
      ∃ p0, startsWithAt content O p0 = true ∧ p0 < c0 ∧
        t0.innerStart = p0 + (O.length : Int) ∧ t0.parentStart = p0)

lemma InvF_mono {O C content : Chars} {i j : Int} {b : Bool} {ts : Option TagStruct}
    (h : InvF O C content i b ts) (hij : i ≤ j) : InvF O C content j b ts := by
  intro hb
  obtain ⟨p0, t0, h1, h2, h3, h4⟩ := h hb
  exact ⟨p0, t0, h1, h2, by omega, h4⟩

lemma InvB_mono {O C content : Chars} {i j : Int} {b : Bool} {ts : Option TagStruct}
    (h : InvB O C content i b ts) (hij : j ≤ i) : InvB O C content j b ts := by
  intro hb
  obtain ⟨c0, t0, h1, h2, h3, h4⟩ := h hb
  exact ⟨c0, t0, h1, h2, by omega, h4⟩

/-- One forward step preserves `InvF`, and a completed tag satisfies
`GoodTag` (under the no-overlap side condition). -/
lemma parseStep_invF {O C content : Chars} (hO : O ≠ []) (hC : C ≠ [])
    (hNO : NoOverlap O C content) {i : Int} {initTag : Bool} {ts : Option TagStruct}
    (hInv : InvF O C content i initTag ts) :
    (∀ t, parseStep O C content true i initTag ts = .done t → GoodTag t) ∧
    (∀ b2 ts2, parseStep O C content true i initTag ts = .cont b2 ts2 →
      InvF O C content (i + 1) b2 ts2) := by
  have hOlen : 0 < (O.length : Int) := by
    have := List.length_pos.mpr hO; omega
  have hClen : 0 < (C.length : Int) := by
    have := List.length_pos.mpr hC; omega
  cases hOm : startsWithAt content O i with
  | true =>
    cases initTag with
    | false =>
      constructor
      · intro t ht
        simp [parseStep, hOm] at ht
      · intro b2 ts2 hcont
        simp [parseStep, hOm] at hcont
        obtain ⟨hb, hts⟩ := hcont
        subst hb
        subst hts
        intro _
        refine ⟨i, _, rfl, hOm, by omega, ?_⟩
        simp
    | true =>
      obtain ⟨p0, t0, hts, hOm0, hp0i, hps, his, hdisj⟩ := hInv rfl
      subst hts
      by_cases hcl : 0 < t0.closingTagPos.length
      · have hclne : t0.closingTagPos ≠ [] := by
          intro hh; rw [hh] at hcl; simp at hcl
        obtain ⟨c0, hCm0, hpc0, hie, hpe⟩ := hdisj.resolve_left hclne
        by_cases hz : t0.openingTagPos = [] ∧ t0.closingTagPos.length - 1 = 0
        · have hstep : parseStep O C content true i true (some t0) =
              .done
                { t0 with
                  openingTagPos := t0.openingTagPos,
                  closingTagPos := t0.closingTagPos.dropLast,
                  content := jsSubstring content t0.innerStart t0.innerEnd } := by
            simp [parseStep, hOm, hcl, List.dropLast_concat, hz.1, hz.2]
          constructor
          · intro t ht
            rw [hstep] at ht
            cases ht
            have h2 := hNO p0 c0 hOm0 hCm0 hpc0
            refine ⟨?_, ?_, ?_⟩
            · simp [hps, his]; omega
            · simp [his, hie]; omega
            · simp [hie, hpe]; omega
          · intro b2 ts2 hcont
            rw [hstep] at hcont
            cases hcont
        · have hstep : parseStep O C content true i true (some t0) =
              .cont true (some
                { t0 with
                  openingTagPos := t0.openingTagPos,
                  closingTagPos := t0.closingTagPos.dropLast }) := by
            simp [parseStep, hOm, hcl, List.dropLast_concat]
            intro h1 h2
            exact absurd ⟨h1, h2⟩ hz
          constructor
          · intro t ht
            rw [hstep] at ht
            cases ht
          · intro b2 ts2 hcont
            rw [hstep] at hcont
            cases hcont
            intro _
            exact ⟨p0, _, rfl, hOm0, by omega, by simp [hps], by simp [his],
              Or.inr ⟨c0, hCm0, hpc0, by simp [hie], by simp [hpe]⟩⟩
      · have hstep : parseStep O C content true i true (some t0) =
            .cont true (some
              { t0 with
                openingTagPos := t0.openingTagPos ++ [i] }) := by
          simp [parseStep, hOm, hcl]
        constructor
        · intro t ht
          rw [hstep] at ht
          cases ht
        · intro b2 ts2 hcont
          rw [hstep] at hcont
          cases hcont
          intro _
          refine ⟨p0, _, rfl, hOm0, by omega, by simp [hps], by simp [his], ?_⟩
          rcases hdisj with hl | ⟨c0, hCm0, hpc0, hie, hpe⟩
          · exact Or.inl (by simp [hl])
          · exact Or.inr ⟨c0, hCm0, hpc0, by simp [hie], by simp [hpe]⟩
  | false =>
    cases hCm : startsWithAt content C i with
    | false =>
      have hstep := @parseStep_noMatch O C content true i initTag ts hOm hCm
      constructor
      · intro t ht
        rw [hstep] at ht
        cases ht
      · intro b2 ts2 hcont
        rw [hstep] at hcont
        cases hcont
        exact InvF_mono hInv (by omega)
    | true =>
      cases initTag with
      | false =>
        have hstep : parseStep O C content true i false ts = .cont false ts := by
          simp [parseStep, hOm, hCm]
        constructor
        · intro t ht
          rw [hstep] at ht
          cases ht
        · intro b2 ts2 hcont
          rw [hstep] at hcont
          cases hcont
          intro hb
          simp at hb
      | true =>
        obtain ⟨p0, t0, hts, hOm0, hp0i, hps, his, hdisj⟩ := hInv rfl
        subst hts
        by_cases hop : 0 < t0.openingTagPos.length
        · by_cases hz : t0.closingTagPos = [] ∧ t0.openingTagPos.length - 1 = 0
          · have hstep : parseStep O C content true i true (some t0) =
                .done
                  { t0 with
                    closingTagPos := t0.closingTagPos,
                    openingTagPos := t0.openingTagPos.dropLast,
                    innerEnd := i, parentEnd := i + (C.length : Int),
                    content := jsSubstring content t0.innerStart i } := by
              simp [parseStep, hOm, hCm, hop, List.dropLast_concat, hz.1, hz.2]
            constructor
            · intro t ht
              rw [hstep] at ht
              cases ht
              have h2 := hNO p0 i hOm0 hCm hp0i
              refine ⟨?_, ?_, ?_⟩
              · simp [hps, his]; omega
              · simp [his]; omega
              · simp; omega
            · intro b2 ts2 hcont
              rw [hstep] at hcont
              cases hcont
          · have hstep : parseStep O C content true i true (some t0) =
                .cont true (some
                  { t0 with
                    closingTagPos := t0.closingTagPos,
                    openingTagPos := t0.openingTagPos.dropLast,
                    innerEnd := i, parentEnd := i + (C.length : Int) }) := by
              simp [parseStep, hOm, hCm, hop, List.dropLast_concat]
              intro h1 h2
              exact absurd ⟨h1, h2⟩ hz
            constructor
            · intro t ht
              rw [hstep] at ht
              cases ht
            · intro b2 ts2 hcont
              rw [hstep] at hcont
              cases hcont
              intro _
              exact ⟨p0, _, rfl, hOm0, by omega, by simp [hps], by simp [his],
                Or.inr ⟨i, hCm, by omega, by simp, by simp⟩⟩
        · have hstep : parseStep O C content true i true (some t0) =
              .cont true (some
                { t0 with
                  closingTagPos := t0.closingTagPos ++ [i],
                  innerEnd := i, parentEnd := i + (C.length : Int) }) := by
            simp [parseStep, hOm, hCm, hop]
          constructor
          · intro t ht
            rw [hstep] at ht
            cases ht
          · intro b2 ts2 hcont
            rw [hstep] at hcont
            cases hcont
            intro _
            exact ⟨p0, _, rfl, hOm0, by omega, by simp [hps], by simp [his],
              Or.inr ⟨i, hCm, by omega, by simp, by simp⟩⟩

/-- One backward step preserves `InvB`, and a completed tag satisfies
`GoodTag` (under the no-overlap side condition). -/
lemma parseStep_invB {O C content : Chars} (hO : O ≠ []) (hC : C ≠ [])
    (hNO : NoOverlap O C content) {i : Int} {initTag : Bool} {ts : Option TagStruct}
    (hInv : InvB O C content i initTag ts) :
    (∀ t, parseStep O C content false i initTag ts = .done t → GoodTag t) ∧
    (∀ b2 ts2, parseStep O C content false i initTag ts = .cont b2 ts2 →
      InvB O C content (i - 1) b2 ts2) := by
  have hOlen : 0 < (O.length : Int) := by
    have := List.length_pos.mpr hO; omega
  have hClen : 0 < (C.length : Int) := by
    have := List.length_pos.mpr hC; omega
  cases hOm : startsWithAt content O i with
  | true =>
    cases initTag with
    | false =>
      have hstep : parseStep O C content false i false ts = .cont false ts := by
        simp [parseStep, hOm]
      constructor
      · intro t ht
        rw [hstep] at ht
        cases ht
      · intro b2 ts2 hcont
        rw [hstep] at hcont
        cases hcont
        intro hb
        simp at hb
    | true =>
      obtain ⟨c0, t0, hts, hCm0, hic0, hpe, hie, hdisj⟩ := hInv rfl
      subst hts
      by_cases hcl : 0 < t0.closingTagPos.length
      · by_cases hz : t0.openingTagPos = [] ∧ t0.closingTagPos.length - 1 = 0
        · have hstep : parseStep O C content false i true (some t0) =
              .done
                { t0 with
                  openingTagPos := t0.openingTagPos,
                  closingTagPos := t0.closingTagPos.dropLast,
                  innerStart := i + (O.length : Int), parentStart := i,
                  content := jsSubstring content (i + (O.length : Int)) t0.innerEnd } := by
            simp [parseStep, hOm, hcl, List.dropLast_concat, hz.1, hz.2]
          constructor
          · intro t ht
            rw [hstep] at ht
            cases ht
            have h2 := hNO i c0 hOm hCm0 hic0
            refine ⟨?_, ?_, ?_⟩
            · simp; omega
            · simp [hie]; omega
            · simp [hie, hpe]; omega
          · intro b2 ts2 hcont
            rw [hstep] at hcont
            cases hcont
        · have hstep : parseStep O C content false i true (some t0) =
              .cont true (some
                { t0 with
                  openingTagPos := t0.openingTagPos,
                  closingTagPos := t0.closingTagPos.dropLast,
                  innerStart := i + (O.length : Int), parentStart := i }) := by
            simp [parseStep, hOm, hcl, List.dropLast_concat]
            intro h1 h2
            exact absurd ⟨h1, h2⟩ hz
          constructor
          · intro t ht
            rw [hstep] at ht
            cases ht
          · intro b2 ts2 hcont
            rw [hstep] at hcont
            cases hcont
            intro _
            exact ⟨c0, _, rfl, hCm0, by omega, by simp [hpe], by simp [hie],
              Or.inr ⟨i, hOm, by omega, by simp, by simp⟩⟩
      · have hstep : parseStep O C content false i true (some t0) =
            .cont true (some
              { t0 with
                openingTagPos := t0.openingTagPos ++ [i],
                innerStart := i + (O.length : Int), parentStart := i }) := by
          simp [parseStep, hOm, hcl]
        constructor
        · intro t ht
          rw [hstep] at ht
          cases ht
        · intro b2 ts2 hcont
          rw [hstep] at hcont
          cases hcont
          intro _
          exact ⟨c0, _, rfl, hCm0, by omega, by simp [hpe], by simp [hie],
            Or.inr ⟨i, hOm, by omega, by simp, by simp⟩⟩
  | false =>
    cases hCm : startsWithAt content C i with
    | false =>
      have hstep := @parseStep_noMatch O C content false i initTag ts hOm hCm
      constructor
      · intro t ht
        rw [hstep] at ht
        cases ht
      · intro b2 ts2 hcont
        rw [hstep] at hcont
        cases hcont
        exact InvB_mono hInv (by omega)
    | true =>
      cases initTag with
      | false =>
        constructor
        · intro t ht
          simp [parseStep, hOm, hCm] at ht
        · intro b2 ts2 hcont
          simp [parseStep, hOm, hCm] at hcont
          obtain ⟨hb, hts⟩ := hcont
          subst hb
          subst hts
          intro _
          refine ⟨i, _, rfl, hCm, by omega, ?_⟩
          simp
      | true =>
        obtain ⟨c0, t0, hts, hCm0, hic0, hpe, hie, hdisj⟩ := hInv rfl
        subst hts
        by_cases hop : 0 < t0.openingTagPos.length
        · have hopne : t0.openingTagPos ≠ [] := by
            intro hh; rw [hh] at hop; simp at hop
          obtain ⟨p0, hOm0, hp0c0, his, hps⟩ := hdisj.resolve_left hopne
          by_cases hz : t0.closingTagPos = [] ∧ t0.openingTagPos.length - 1 = 0
          · have hstep : parseStep O C content false i true (some t0) =
                .done
                  { t0 with
                    closingTagPos := t0.closingTagPos,
                    openingTagPos := t0.openingTagPos.dropLast,
                    content := jsSubstring content t0.innerStart t0.innerEnd } := by
              simp [parseStep, hOm, hCm, hop, List.dropLast_concat, hz.1, hz.2]
            constructor
            · intro t ht
              rw [hstep] at ht
              cases ht
              have h2 := hNO p0 c0 hOm0 hCm0 hp0c0
              refine ⟨?_, ?_, ?_⟩
              · simp [hps, his]; omega
              · simp [his, hie]; omega
              · simp [hie, hpe]; omega
            · intro b2 ts2 hcont
              rw [hstep] at hcont
              cases hcont
          · have hstep : parseStep O C content false i true (some t0) =
                .cont true (some
                  { t0 with
                    closingTagPos := t0.closingTagPos,
                    openingTagPos := t0.openingTagPos.dropLast }) := by
              simp [parseStep, hOm, hCm, hop, List.dropLast_concat]
              intro h1 h2
              exact absurd ⟨h1, h2⟩ hz
            constructor
            · intro t ht
              rw [hstep] at ht
              cases ht
            · intro b2 ts2 hcont
              rw [hstep] at hcont
              cases hcont
              intro _
              exact ⟨c0, _, rfl, hCm0, by omega, by simp [hpe], by simp [hie],
                Or.inr ⟨p0, hOm0, hp0c0, by simp [his], by simp [hps]⟩⟩
        · have hstep : parseStep O C content false i true (some t0) =
              .cont true (some
                { t0 with
                  closingTagPos := t0.closingTagPos ++ [i] }) := by
            simp [parseStep, hOm, hCm, hop]
          constructor
          · intro t ht
            rw [hstep] at ht
            cases ht
          · intro b2 ts2 hcont
            rw [hstep] at hcont
            cases hcont
            intro _
            refine ⟨c0, _, rfl, hCm0, by omega, by simp [hpe], by simp [hie], ?_⟩
            rcases hdisj with hl | ⟨p0, hOm0, hp0c0, his, hps⟩
            · exact Or.inl (by simp [hl])
            · exact Or.inr ⟨p0, hOm0, hp0c0, by simp [his], by simp [hps]⟩

/-- Any `true` result of the forward scan loop carries a `GoodTag`-shaped
match, given the invariant at entry. -/
lemma parseLoop_goodF {O C content : Chars} (hO : O ≠ []) (hC : C ≠ [])
    (hNO : NoOverlap O C content) :
    ∀ (n : Nat) (i : Int) (b : Bool) (ts : Option TagStruct),
    ((content.length : Int) - i).toNat = n → InvF O C content i b ts →
    (parseLoop O C content true i b ts).1 = true →
    ∃ t, (parseLoop O C content true i b ts).2 = some t ∧ GoodTag t := by
  intro n
  induction n with
  | zero =>
    intro i b ts hn hInv h1
    have hc : ¬ loopCond true (content.length : Int) i := by
      simp only [loopCond, not_lt]; omega
    rw [parseLoop_exit hc] at h1
    simp at h1
  | succ n ih =>
    intro i b ts hn hInv h1
    have hc : loopCond true (content.length : Int) i := by
      simp only [loopCond]; omega
    rw [parseLoop_cond_eq hc] at h1 ⊢
    rcases hstep : parseStep O C content true i b ts with t | ⟨b2, ts2⟩
    · exact ⟨t, rfl, (parseStep_invF hO hC hNO hInv).1 t hstep⟩
    · have hInv2 := (parseStep_invF hO hC hNO hInv).2 b2 ts2 hstep
      rw [hstep] at h1
      have h2 := ih (i + 1) b2 ts2 (by simp only [loopCond] at hc; omega) hInv2
        (by simpa using h1)
      simpa using h2

/-- Any `true` result of the backward scan loop carries a `GoodTag`-shaped
match, given the invariant at entry. -/
lemma parseLoop_goodB {O C content : Chars} (hO : O ≠ []) (hC : C ≠ [])
    (hNO : NoOverlap O C content) :
    ∀ (n : Nat) (i : Int) (b : Bool) (ts : Option TagStruct),
    (i + 1).toNat = n → InvB O C content i b ts →
    (parseLoop O C content false i b ts).1 = true →
    ∃ t, (parseLoop O C content false i b ts).2 = some t ∧ GoodTag t := by
  intro n
  induction n with
  | zero =>
    intro i b ts hn hInv h1
    have hc : ¬ loopCond false (content.length : Int) i := by
      simp only [loopCond, not_le]; omega
    rw [parseLoop_exit hc] at h1
    simp at h1
  | succ n ih =>
    intro i b ts hn hInv h1
    have hc : loopCond false (content.length : Int) i := by
      simp only [loopCond]; omega
    rw [parseLoop_cond_eq hc] at h1 ⊢
    rcases hstep : parseStep O C content false i b ts with t | ⟨b2, ts2⟩
    · exact ⟨t, rfl, (parseStep_invB hO hC hNO hInv).1 t hstep⟩
    · have hInv2 := (parseStep_invB hO hC hNO hInv).2 b2 ts2 hstep
      rw [hstep] at h1
      have hii : i + -1 = i - 1 := by ring
      have h2 := ih (i - 1) b2 ts2 (by omega) hInv2 (by simpa [hii] using h1)
      simpa [hii] using h2

/-! ### Claim-level helper lemmas -/

lemma startsWithAt_nonpos {s d : Chars} {k : Int} (hk : k ≤ 0) :
    startsWithAt s d k = startsWithAt s d 0 := by
  unfold startsWithAt
  rw [Int.toNat_of_nonpos hk]
  rfl

lemma scan_forward (p : Parser) (e : Editor) :
    p.scan e true = parseLoop p.openingDelimiter p.closingDelimiter e.content true
      ((e.selTo : Nat) : Int) false p.tagStruct := by
  simp [Parser.scan]

lemma scan_backward (p : Parser) (e : Editor) :
    p.scan e false = parseLoop p.openingDelimiter p.closingDelimiter e.content false
      (((e.selFrom : Nat) : Int) - 1) false p.tagStruct := by
  simp [Parser.scan]

/-- The buffer contains exactly one well-formed region: the opening
delimiter occurs exactly at `p`, the closing delimiter exactly at
`c ≥ p + |O|` (a decidable property of the buffer). -/
def UniqueRegion (O C content : Chars) (p c : Nat) : Prop :=
  O ≠ [] ∧ C ≠ [] ∧
  startsWithAt content O (p : Int) = true ∧ startsWithAt content C (c : Int) = true ∧
  p + O.length ≤ c ∧
  (∀ n : Nat, n < content.length → startsWithAt content O (n : Int) = true → n = p) ∧
  (∀ n : Nat, n < content.length → startsWithAt content C (n : Int) = true → n = c)

instance (O C content : Chars) (p c : Nat) : Decidable (UniqueRegion O C content p c) := by
  unfold UniqueRegion
  infer_instance

lemma UniqueRegion.oOnly {O C content : Chars} {p c : Nat}
    (h : UniqueRegion O C content p c) :
    ∀ k : Int, 0 ≤ k → startsWithAt content O k = true → k = (p : Int) := by
  refine onlyAt_of_bounded h.1 (p : Int) ?_
  intro n hn hs
  have := h.2.2.2.2.2.1 n hn hs
  omega

lemma UniqueRegion.cOnly {O C content : Chars} {p c : Nat}
    (h : UniqueRegion O C content p c) :
    ∀ k : Int, 0 ≤ k → startsWithAt content C k = true → k = (c : Int) := by
  refine onlyAt_of_bounded h.2.1 (c : Int) ?_
  intro n hn hs
  have := h.2.2.2.2.2.2 n hn hs
  omega

/-- A forward `parse` whose scan origin (the selection end) is at or
before the unique region finds exactly that region. -/
lemma parse_forward_findsUnique {pr : Parser} {e : Editor} {p c : Nat}
    (hU : UniqueRegion pr.openingDelimiter pr.closingDelimiter e.content p c)
    (hsel : e.selTo ≤ p) :
    Parser.parse pr e true false = (true, { pr with tagStruct := some (singleTag pr.openingDelimiter pr.closingDelimiter e.content (p : Int) (c : Int)) }, e) := by
  have hOonly := hU.oOnly
  have hConly := hU.cOnly
  obtain ⟨hO, hC, hOm, hCm, hpc, -, -⟩ := hU
  have hloop := @parseLoop_singleF pr.openingDelimiter pr.closingDelimiter e.content
    pr.tagStruct hO hC (p : Int) (c : Int)
    (by omega : (0 : Int) ≤ (p : Int)) hOm hCm (by omega)
    hOonly hConly ((e.selTo : Nat) : Int) (by omega) (by omega)
  have hscan : pr.scan e true = (true, some
      (singleTag pr.openingDelimiter pr.closingDelimiter e.content (p : Int) (c : Int))) := by
    rw [scan_forward]
    exact hloop
  exact parse_scanFound hscan

/-- A forward `parse` whose scan origin lies strictly past the unique
region's opening delimiter finds nothing and reports `false`. -/
lemma parse_forward_missUnique {pr : Parser} {e : Editor} {p c : Nat}
    (hU : UniqueRegion pr.openingDelimiter pr.closingDelimiter e.content p c)
    (hsel : p < e.selTo) :
    (Parser.parse pr e true false).1 = false ∧
      (Parser.parse pr e true false).2.1.tagStruct = none := by
  have hno : ∀ k, ((e.selTo : Nat) : Int) ≤ k →
      startsWithAt e.content pr.openingDelimiter k = false := by
    intro k hk
    cases hOk : startsWithAt e.content pr.openingDelimiter k with
    | false => rfl
    | true =>
      have := hU.oOnly k (by omega) hOk
      omega
  have hmiss := @parseLoop_missF pr.openingDelimiter pr.closingDelimiter e.content
    pr.tagStruct
    (((e.content.length : Int) - ((e.selTo : Nat) : Int)).toNat) ((e.selTo : Nat) : Int) rfl hno
  have hscan : pr.scan e true = (false, pr.tagStruct) := by
    rw [scan_forward]
    exact hmiss
  exact parse_scanNotFound hscan

/-- A backward `parse` whose scan origin (one before the selection start)
is at or after the unique region's closing delimiter finds that region. -/
lemma parse_backward_findsUnique {pr : Parser} {e : Editor} {p c : Nat}
    (hU : UniqueRegion pr.openingDelimiter pr.closingDelimiter e.content p c)
    (hsel : c < e.selFrom) :
    Parser.parse pr e false false = (true, { pr with tagStruct := some (singleTag pr.openingDelimiter pr.closingDelimiter e.content (p : Int) (c : Int)) }, e) := by
  have hOonly := hU.oOnly
  have hConly := hU.cOnly
  obtain ⟨hO, hC, hOm, hCm, hpc, -, -⟩ := hU
  have hloop := @parseLoop_singleB pr.openingDelimiter pr.closingDelimiter e.content
    pr.tagStruct hO hC (p : Int) (c : Int)
    (by omega : (0 : Int) ≤ (p : Int)) hOm hCm (by omega)
    hOonly hConly (((e.selFrom : Nat) : Int) - 1) (by omega)
  have hscan : pr.scan e false = (true, some
      (singleTag pr.openingDelimiter pr.closingDelimiter e.content (p : Int) (c : Int))) := by
    rw [scan_backward]
    exact hloop
  exact parse_scanFound hscan

/-- A backward `parse` whose scan origin lies strictly before the unique
region's closing delimiter finds nothing and reports `false`. -/
lemma parse_backward_missUnique {pr : Parser} {e : Editor} {p c : Nat}
    (hU : UniqueRegion pr.openingDelimiter pr.closingDelimiter e.content p c)
    (hsel : e.selFrom ≤ c) :
    (Parser.parse pr e false false).1 = false ∧
      (Parser.parse pr e false false).2.1.tagStruct = none := by
  have hOlen : 0 < pr.openingDelimiter.length := List.length_pos.mpr hU.1
  have hc1 : 1 ≤ c := by
    have := hU.2.2.2.2.1
    omega
  have hno : ∀ k, k ≤ ((e.selFrom : Nat) : Int) - 1 →
      startsWithAt e.content pr.closingDelimiter k = false := by
    intro k hk
    cases hCk : startsWithAt e.content pr.closingDelimiter k with
    | false => rfl
    | true =>
      by_cases hk0 : 0 ≤ k
      · have := hU.cOnly k hk0 hCk
        omega
      · rw [startsWithAt_nonpos (by omega)] at hCk
        have := hU.cOnly 0 le_rfl hCk
        omega
  have hmiss := @parseLoop_missB pr.openingDelimiter pr.closingDelimiter e.content
    pr.tagStruct
    ((((e.selFrom : Nat) : Int) - 1 + 1).toNat) (((e.selFrom : Nat) : Int) - 1) rfl hno
  have hscan : pr.scan e false = (false, pr.tagStruct) := by
    rw [scan_backward]
    exact hmiss
  exact parse_scanNotFound hscan

/-! ### Nested regions of the shape O O C C -/

/-- The buffer contains exactly two nested regions in the shape
`O O C C`: opening delimiters exactly at `p1 < p2`, closing delimiters
exactly at `c1 < c2`, with `p2 < c1` (a decidable property). -/
def NestedRegions (O C content : Chars) (p1 p2 c1 c2 : Nat) : Prop :=
  O ≠ [] ∧ C ≠ [] ∧
  startsWithAt content O (p1 : Int) = true ∧ startsWithAt content O (p2 : Int) = true ∧
  startsWithAt content C (c1 : Int) = true ∧ startsWithAt content C (c2 : Int) = true ∧
  p1 < p2 ∧ p2 < c1 ∧ c1 < c2 ∧
  (∀ n : Nat, n < content.length → startsWithAt content O (n : Int) = true → n = p1 ∨ n = p2) ∧
  (∀ n : Nat, n < content.length → startsWithAt content C (n : Int) = true → n = c1 ∨ n = c2)

instance (O C content : Chars) (p1 p2 c1 c2 : Nat) :
    Decidable (NestedRegions O C content p1 p2 c1 c2) := by
  unfold NestedRegions
  infer_instance

/-- Forward scan over an `O O C C` buffer, started at or before the outer
opening delimiter: the loop resolves the outer region `p1 .. c2 + |C|`. -/
lemma parseLoop_nestedF {O C content : Chars} {ts0 : Option TagStruct}
    (hO : O ≠ []) (hC : C ≠ []) {p1 p2 c1 c2 : Int} (hp10 : 0 ≤ p1)
    (h12 : p1 < p2) (h2c : p2 < c1) (hcc : c1 < c2)
    (hOm1 : startsWithAt content O p1 = true) (hOm2 : startsWithAt content O p2 = true)
    (hCm1 : startsWithAt content C c1 = true) (hCm2 : startsWithAt content C c2 = true)
    (hOonly : ∀ k : Int, 0 ≤ k → startsWithAt content O k = true → k = p1 ∨ k = p2)
    (hConly : ∀ k : Int, 0 ≤ k → startsWithAt content C k = true → k = c1 ∨ k = c2)
    {s : Int} (hs0 : 0 ≤ s) (hsp : s ≤ p1) :
    parseLoop O C content true s false ts0 = (true, some (singleTag O C content p1 c2)) := by
  have hOlen : 0 < (O.length : Int) := by
    have := List.length_pos.mpr hO; omega
  have hClen : 0 < (C.length : Int) := by
    have := List.length_pos.mpr hC; omega
  have hp1len : p1 < (content.length : Int) := startsWithAt_lt (by omega) hOm1 hO
  have hp2len : p2 < (content.length : Int) := startsWithAt_lt (by omega) hOm2 hO
  have hc1len : c1 < (content.length : Int) := startsWithAt_lt (by omega) hCm1 hC
  have hc2len : c2 < (content.length : Int) := startsWithAt_lt (by omega) hCm2 hC
  have hnoev : ∀ k : Int, 0 ≤ k → k ≠ p1 → k ≠ p2 → k ≠ c1 → k ≠ c2 →
      startsWithAt content O k = false ∧ startsWithAt content C k = false := by
    intro k hk h1 h2 h3 h4
    constructor
    · cases hOk : startsWithAt content O k with
      | false => rfl
      | true => rcases hOonly k hk hOk with h | h <;> simp_all
    · cases hCk : startsWithAt content C k with
      | false => rfl
      | true => rcases hConly k hk hCk with h | h <;> simp_all
  have hOc1 : startsWithAt content O c1 = false := by
    cases hOk : startsWithAt content O c1 with
    | false => rfl
    | true =>
      rcases hOonly c1 (by omega) hOk with h | h <;> omega
  have hOc2 : startsWithAt content O c2 = false := by
    cases hOk : startsWithAt content O c2 with
    | false => rfl
    | true =>
      rcases hOonly c2 (by omega) hOk with h | h <;> omega
  have hcond1 : loopCond true (content.length : Int) p1 := by
    simp only [loopCond]; omega
  have hcond2 : loopCond true (content.length : Int) p2 := by
    simp only [loopCond]; omega
  have hcond3 : loopCond true (content.length : Int) c1 := by
    simp only [loopCond]; omega
  have hcond4 : loopCond true (content.length : Int) c2 := by
    simp only [loopCond]; omega
  have hstep1 : parseStep O C content true p1 false ts0 =
      .cont true (some
        { parentStart := p1, parentEnd := -1,
          innerStart := p1 + (O.length : Int), innerEnd := -1, content := [],
          openingTagPos := [p1], closingTagPos := [] }) := by
    simp [parseStep, hOm1]
  have hstep2 : parseStep O C content true p2 true (some
      { parentStart := p1, parentEnd := -1,
        innerStart := p1 + (O.length : Int), innerEnd := -1, content := [],
        openingTagPos := [p1], closingTagPos := [] }) =
      .cont true (some
        { parentStart := p1, parentEnd := -1,
          innerStart := p1 + (O.length : Int), innerEnd := -1, content := [],
          openingTagPos := [p1, p2], closingTagPos := [] }) := by
    simp [parseStep, hOm2]
  have hstep3 : parseStep O C content true c1 true (some
      { parentStart := p1, parentEnd := -1,
        innerStart := p1 + (O.length : Int), innerEnd := -1, content := [],
        openingTagPos := [p1, p2], closingTagPos := [] }) =
      .cont true (some
        { parentStart := p1, parentEnd := c1 + (C.length : Int),
          innerStart := p1 + (O.length : Int), innerEnd := c1, content := [],
          openingTagPos := [p1], closingTagPos := [] }) := by
    simp [parseStep, hOc1, hCm1, List.dropLast, List.dropLast_concat]
  have hstep4 : parseStep O C content true c2 true (some
      { parentStart := p1, parentEnd := c1 + (C.length : Int),
        innerStart := p1 + (O.length : Int), innerEnd := c1, content := [],
        openingTagPos := [p1], closingTagPos := [] }) =
      .done (singleTag O C content p1 c2) := by
    simp [parseStep, hOc2, hCm2, singleTag]
  calc parseLoop O C content true s false ts0
      = parseLoop O C content true p1 false ts0 := by
        refine parseLoop_skipF (p1 - s).toNat s p1 (by omega) hsp ?_
        intro k hk hk2
        exact hnoev k (by omega) (by omega) (by omega) (by omega) (by omega)
    _ = parseLoop O C content true (p1 + 1) true (some
        { parentStart := p1, parentEnd := -1,
          innerStart := p1 + (O.length : Int), innerEnd := -1, content := [],
          openingTagPos := [p1], closingTagPos := [] }) := by
        rw [parseLoop_cond_eq hcond1, hstep1]
        rfl
    _ = parseLoop O C content true p2 true (some
        { parentStart := p1, parentEnd := -1,
          innerStart := p1 + (O.length : Int), innerEnd := -1, content := [],
          openingTagPos := [p1], closingTagPos := [] }) := by
        refine parseLoop_skipF (p2 - (p1 + 1)).toNat (p1 + 1) p2 (by omega) (by omega) ?_
        intro k hk hk2
        exact hnoev k (by omega) (by omega) (by omega) (by omega) (by omega)
    _ = parseLoop O C content true (p2 + 1) true (some
        { parentStart := p1, parentEnd := -1,
          innerStart := p1 + (O.length : Int), innerEnd := -1, content := [],
          openingTagPos := [p1, p2], closingTagPos := [] }) := by
        rw [parseLoop_cond_eq hcond2, hstep2]
        rfl
    _ = parseLoop O C content true c1 true (some
        { parentStart := p1, parentEnd := -1,
          innerStart := p1 + (O.length : Int), innerEnd := -1, content := [],
          openingTagPos := [p1, p2], closingTagPos := [] }) := by
        refine parseLoop_skipF (c1 - (p2 + 1)).toNat (p2 + 1) c1 (by omega) (by omega) ?_
        intro k hk hk2
        exact hnoev k (by omega) (by omega) (by omega) (by omega) (by omega)
    _ = parseLoop O C content true (c1 + 1) true (some
        { parentStart := p1, parentEnd := c1 + (C.length : Int),
          innerStart := p1 + (O.length : Int), innerEnd := c1, content := [],
          openingTagPos := [p1], closingTagPos := [] }) := by
        rw [parseLoop_cond_eq hcond3, hstep3]
        rfl
    _ = parseLoop O C content true c2 true (some
        { parentStart := p1, parentEnd := c1 + (C.length : Int),
          innerStart := p1 + (O.length : Int), innerEnd := c1, content := [],
          openingTagPos := [p1], closingTagPos := [] }) := by
        refine parseLoop_skipF (c2 - (c1 + 1)).toNat (c1 + 1) c2 (by omega) (by omega) ?_
        intro k hk hk2
        exact hnoev k (by omega) (by omega) (by omega) (by omega) (by omega)
    _ = (true, some (singleTag O C content p1 c2)) := by
        rw [parseLoop_cond_eq hcond4, hstep4]

/-! ### Shared concrete examples -/

/-- The specification's running example buffer. -/
def exTagText : Chars := "before |<X>| after".toList

/-- The match state resolved on `exTagText` with delimiters
`|<` and `>|`. -/
def exTag : TagStruct :=
  { parentStart := 7, parentEnd := 12, innerStart := 9, innerEnd := 10,
    content := "X".toList, openingTagPos := [], closingTagPos := [] }

/-- The example editor, cursor collapsed at offset 0. -/
def exEditor : Editor := { content := exTagText, selFrom := 0, selTo := 0 }

/-- Example parser with delimiters `|<` / `>|` and no match state. -/
def exParserNone : Parser :=
  { openingDelimiter := "|<".toList, closingDelimiter := ">|".toList,
    tagStruct := none, wrapAroundEnabled := false }

/-- Example parser with delimiters `|<` / `>|` holding the resolved
match state `exTag`. -/
def exParserResolved : Parser :=
  { openingDelimiter := "|<".toList, closingDelimiter := ">|".toList,
    tagStruct := some exTag, wrapAroundEnabled := false }

/-! ### The claims -/

/-- C1: the spec claims that with wrap-around enabled and the cursor after
the last region, a forward parse relocates to offset 0, retries once and
succeeds.  The code instead aborts the retry: the wrap branch is only
reached when `tagStruct` is null, and the retry's recursion guard
(`wrapCheck && tagStruct === null`) then returns `false` before scanning.
First conjunct: on `"a[x]b"` with delimiters `[`/`]`, wrap enabled and
cursor at offset 5, `parse` returns `false` (with the cursor moved to 0).
Second conjunct: a scan from offset 0 over the same buffer does find the
region, so the aborted retry is the only reason for the failure. -/
theorem C1_wrap_retry_aborts :
    Parser.parse ⟨"[".toList, "]".toList, none, true⟩ ⟨"a[x]b".toList, 5, 5⟩ true false =
      (false, ⟨"[".toList, "]".toList, none, true⟩, ⟨"a[x]b".toList, 0, 0⟩) ∧
    (Parser.parse ⟨"[".toList, "]".toList, none, true⟩ ⟨"a[x]b".toList, 0, 0⟩ true false).1 =
      true := by
  constructor
  · simp [Parser.parse, Parser.scan, parseLoop, parseStep, loopCond, startsWithAt,
      jsSubstring, Editor.setCursor]
  · simp [Parser.parse, Parser.scan, parseLoop, parseStep, loopCond, startsWithAt,
      jsSubstring, Editor.setCursor]

/-- C4 counterexample: setting a new (non-empty) opening or closing
delimiter on a parser holding a resolved match state does *not* clear the
match state — the position query still reports the old region, where the
claim says it must report absence. -/
theorem C4_setter_counterexample :
    (Parser.setOpeningDelimiter exParserResolved "x".toList).getTagPosition = some (7, 12) ∧
    (Parser.setClosingDelimiter exParserResolved "y".toList).getTagPosition = some (7, 12) ∧
    ("x".toList : Chars) ≠ [] ∧ ("y".toList : Chars) ≠ [] ∧
    some ((7 : Int), (12 : Int)) ≠ (none : Option (Int × Int)) := by
  decide

/-- C4 (amended): `setOpeningDelimiter` and `setClosingDelimiter` replace
the delimiter but leave the Match State untouched — every position and
content query answers exactly as before the call (the source setters,
parser.ts lines 47-52, do not call `reset()`). -/
theorem C4_setters_preserve_state (p : Parser) (d : Chars) :
    (p.setOpeningDelimiter d).getTagPosition = p.getTagPosition ∧
    (p.setOpeningDelimiter d).getTagContent = p.getTagContent ∧
    (p.setOpeningDelimiter d).getInnerTagPosition = p.getInnerTagPosition ∧
    (p.setClosingDelimiter d).getTagPosition = p.getTagPosition ∧
    (p.setClosingDelimiter d).getTagContent = p.getTagContent ∧
    (p.setClosingDelimiter d).getInnerTagPosition = p.getInnerTagPosition := by
  simp [Parser.setOpeningDelimiter, Parser.setClosingDelimiter, Parser.getTagPosition,
    Parser.getTagContent, Parser.getInnerTagPosition]

/-- C9: whenever `parse` reports `false` — in either direction, wrapped or
not — the parser's match state is null afterwards.  (In the embedding
`parse` is a total function, which reflects that the source returns
normally rather than raising.) -/
theorem C9_no_match_reports_false (p : Parser) (e : Editor) (fwd wc : Bool)
    (h : (Parser.parse p e fwd wc).1 = false) :
    (Parser.parse p e fwd wc).2.1.tagStruct = none := by
  rw [Parser.parse.eq_def] at h ⊢
  by_cases hg : wc = true ∧ p.tagStruct = none
  · rw [if_pos hg]
    exact hg.2
  · rw [if_neg hg] at h ⊢
    rcases hscan : p.scan e fwd with ⟨found, ts⟩
    rw [hscan] at h
    dsimp only at h ⊢
    cases found with
    | true => simp at h
    | false =>
      rw [if_neg (by simp)]
      by_cases h2 : ts = none ∧ p.wrapAroundEnabled = true ∧ wc = false
      · obtain ⟨h2a, h2b, h2c⟩ := h2
        subst h2a
        rw [dif_pos ⟨rfl, h2b, h2c⟩]
        cases fwd with
        | true => rw [if_pos rfl, parse_wrapTrue rfl]
        | false => rw [if_neg (by simp), parse_wrapTrue rfl]
      · rw [dif_neg h2]

/-- C9 witness: a parse over a buffer with no delimiters returns `false`
and leaves the match state null. -/
theorem C9_no_match_witness :
    (Parser.parse ⟨"[".toList, "]".toList, none, false⟩ ⟨"ab".toList, 0, 0⟩ true false).1 =
      false ∧
    (Parser.parse ⟨"[".toList, "]".toList, none, false⟩ ⟨"ab".toList, 0, 0⟩ true
      false).2.1.tagStruct = none := by
  have h1 : (Parser.parse ⟨"[".toList, "]".toList, none, false⟩ ⟨"ab".toList, 0, 0⟩ true
      false).1 = false := by
    simp [Parser.parse, Parser.scan, parseLoop, parseStep, loopCond, startsWithAt,
      Editor.setCursor]
  exact ⟨h1, C9_no_match_reports_false _ _ _ _ h1⟩

/-- C10 counterexample: on the buffer `"ab[x"` (which contains no
completable region), with wrap-around enabled, match state absent and the
call not a wrap retry, a failing forward parse leaves the cursor at its
pre-call offset 1 — because the scan initialised a partial match at the
lone `[`, so the wrap branch (and its cursor move) is skipped.  The claim
says the cursor is moved to offset 0. -/
theorem C10_cursor_counterexample :
    Parser.parse ⟨"[".toList, "]".toList, none, true⟩ ⟨"ab[x".toList, 1, 1⟩ true false =
      (false, ⟨"[".toList, "]".toList, none, true⟩, ⟨"ab[x".toList, 1, 1⟩) ∧
    (1 : Nat) ≠ 0 := by
  constructor
  · simp [Parser.parse, Parser.scan, parseLoop, parseStep, loopCond, startsWithAt,
      jsSubstring, Editor.setCursor]
  · decide

/-- C10 (amended): when wrap-around is enabled, the call is not a wrap
retry, the match state is absent at entry, *and* the scan completes
without finding a region and without initialising a partial match, the
failing parse moves the cursor to offset 0 (forward) or to the
end-of-buffer offset (backward) before returning `false`. -/
theorem C10_cursor_relocation_amended (p : Parser) (e : Editor) (fwd : Bool)
    (hts : p.tagStruct = none) (hwrap : p.wrapAroundEnabled = true)
    (hscan : p.scan e fwd = (false, none)) :
    Parser.parse p e fwd false =
      (false, p, e.setCursor (if fwd then 0 else e.content.length)) := by
  rw [Parser.parse.eq_def]
  rw [if_neg (by simp), hscan]
  dsimp only
  rw [if_neg (by simp)]
  rw [dif_pos ⟨rfl, hwrap, rfl⟩]
  cases fwd with
  | true =>
    rw [if_pos rfl, parse_wrapTrue rfl]
    rw [Parser.mk_tagStruct_none hts]
    rfl
  | false =>
    rw [if_neg (by simp), parse_wrapTrue rfl]
    rw [Parser.mk_tagStruct_none hts]
    rfl

/-- C10 witness: a failing forward parse over the delimiter-free buffer
`"abc"` with wrap enabled moves the cursor from offset 1 to offset 0. -/
theorem C10_cursor_relocation_witness :
    Parser.parse ⟨"[".toList, "]".toList, none, true⟩ ⟨"abc".toList, 1, 1⟩ true false =
      (false, ⟨"[".toList, "]".toList, none, true⟩, ⟨"abc".toList, 0, 0⟩) := by
  have hscan : (Parser.scan ⟨"[".toList, "]".toList, none, true⟩ ⟨"abc".toList, 1, 1⟩ true) =
      (false, none) := by
    simp [Parser.scan, parseLoop, parseStep, loopCond, startsWithAt]
  have h := C10_cursor_relocation_amended ⟨"[".toList, "]".toList, none, true⟩
    ⟨"abc".toList, 1, 1⟩ true rfl rfl hscan
  simpa [Editor.setCursor] using h

/-- C5 counterexample: with the overlapping delimiters `ab` / `b` on the
buffer `"ab"`, a forward parse returns `true` but the resolved match state
has `innerStart = 2 > innerEnd = 1`, violating the claimed chain
`parentStart < innerStart ≤ innerEnd < parentEnd` (the completing closing
delimiter starts inside the opening delimiter). -/
theorem C5_overlap_counterexample :
    (Parser.parse ⟨"ab".toList, "b".toList, none, false⟩ ⟨"ab".toList, 0, 0⟩ true false).1 =
      true ∧
    (Parser.parse ⟨"ab".toList, "b".toList, none, false⟩ ⟨"ab".toList, 0, 0⟩ true
      false).2.1.getInnerTagPosition = some (2, 1) ∧
    ¬ ((2 : Int) ≤ (1 : Int)) := by
  refine ⟨?_, ?_, by decide⟩
  · simp [Parser.parse, Parser.scan, parseLoop, parseStep, loopCond, startsWithAt,
      jsSubstring, Editor.setCursor]
  · simp [Parser.parse, Parser.scan, parseLoop, parseStep, loopCond, startsWithAt,
      jsSubstring, Editor.setCursor, Parser.getInnerTagPosition]

/-- C5 (amended): for non-empty delimiters such that no closing-delimiter
occurrence begins strictly inside an opening-delimiter occurrence
(`NoOverlap`), every `parse` call that returns `true` leaves a match state
satisfying `parentStart < innerStart ≤ innerEnd < parentEnd`. -/
theorem C5_shape_invariant_amended (p : Parser) (e : Editor) (fwd wc : Bool)
    (hO : p.openingDelimiter ≠ []) (hC : p.closingDelimiter ≠ [])
    (hNO : NoOverlap p.openingDelimiter p.closingDelimiter e.content)
    (h : (Parser.parse p e fwd wc).1 = true) :
    ∃ t, (Parser.parse p e fwd wc).2.1.tagStruct = some t ∧ GoodTag t := by
  obtain ⟨ts, hscan, heq⟩ := parse_true_elim h
  rw [heq]
  cases fwd with
  | true =>
    rw [scan_forward] at hscan
    obtain ⟨t, ht, hg⟩ := parseLoop_goodF hO hC hNO
      (((e.content.length : Int) - ((e.selTo : Nat) : Int)).toNat)
      ((e.selTo : Nat) : Int) false p.tagStruct rfl
      (by intro hb; simp at hb) (by rw [hscan])
    rw [hscan] at ht
    exact ⟨t, by simpa using ht, hg⟩
  | false =>
    rw [scan_backward] at hscan
    obtain ⟨t, ht, hg⟩ := parseLoop_goodB hO hC hNO
      ((((e.selFrom : Nat) : Int) - 1 + 1).toNat)
      (((e.selFrom : Nat) : Int) - 1) false p.tagStruct rfl
      (by intro hb; simp at hb) (by rw [hscan])
    rw [hscan] at ht
    exact ⟨t, by simpa using ht, hg⟩

/-- C5 witness: with delimiters `(` / `)` (length one, so `NoOverlap`
holds for any buffer) over `"(x)"`, the successful forward parse leaves a
match state with the claimed shape. -/
theorem C5_shape_invariant_witness :
    ∃ t, (Parser.parse ⟨"(".toList, ")".toList, none, false⟩ ⟨"(x)".toList, 0, 0⟩ true
      false).2.1.tagStruct = some t ∧ GoodTag t := by
  refine C5_shape_invariant_amended _ _ true false (by decide) (by decide) ?_ ?_
  · show NoOverlap "(".toList ")".toList "(x)".toList
    intro i j h1 h2 hij
    have hlen : (("(".toList : Chars)).length = 1 := by decide
    omega
  · simp [Parser.parse, Parser.scan, parseLoop, parseStep, loopCond, startsWithAt,
      jsSubstring, Editor.setCursor]

/-- C2 counterexample: running the removal pipeline of the spec's example
(`"before |<X>| after"` with delimiters `|<` / `>|`): the buffer becomes
`"before X after"` with content `"X"` preserved — but afterwards the
match state is *not* cleared: the content and position queries still
report the removed tag, where the claim says they must report absence. -/
theorem C2_state_not_cleared_counterexample :
    (Parser.parse exParserNone exEditor true false).1 = true ∧
    (Parser.acceptDefaultText (Parser.parse exParserNone exEditor true false).2.1
      (Parser.parse exParserNone exEditor true false).2.2).2.2.content =
      "before X after".toList ∧
    (Parser.acceptDefaultText (Parser.parse exParserNone exEditor true false).2.1
      (Parser.parse exParserNone exEditor true false).2.2).2.1.getTagContent =
      some "X".toList ∧
    (Parser.acceptDefaultText (Parser.parse exParserNone exEditor true false).2.1
      (Parser.parse exParserNone exEditor true false).2.2).2.1.getTagPosition ≠ none := by
  refine ⟨?_, ?_, ?_, ?_⟩ <;>
    simp [exParserNone, exEditor, exTagText, Parser.parse, Parser.scan, parseLoop,
      parseStep, loopCond, startsWithAt, jsSubstring, Editor.setCursor,
      Parser.acceptDefaultText, Editor.replaceRange, Editor.setSelection,
      Parser.getTagContent, Parser.getTagPosition]

/-- C2 (amended): given a resolved match state whose offsets fit the
buffer, `acceptDefaultText` replaces the full outer span
`parentStart..parentEnd` with exactly the stored content and returns
`true` — but the match state is *not* cleared: the parser component of the
result is unchanged, so subsequent queries still report the old match. -/
theorem C2_removal_keeps_content_amended (p : Parser) (e : Editor) (t : TagStruct)
    (ht : p.tagStruct = some t) (h0 : 0 ≤ t.parentStart)
    (h1 : t.parentStart ≤ t.parentEnd) (h2 : t.parentEnd ≤ (e.content.length : Int)) :
    (Parser.acceptDefaultText p e).1 = true ∧
    (Parser.acceptDefaultText p e).2.1 = p ∧
    (Parser.acceptDefaultText p e).2.2.content =
      e.content.take t.parentStart.toNat ++ t.content ++ e.content.drop t.parentEnd.toNat := by
  unfold Parser.acceptDefaultText
  rw [ht]
  refine ⟨rfl, rfl, ?_⟩
  dsimp only [Editor.replaceRange, Editor.setSelection]
  have ha : min t.parentStart.toNat e.content.length = t.parentStart.toNat := by omega
  have hb : min t.parentEnd.toNat e.content.length = t.parentEnd.toNat := by omega
  rw [ha, hb]

/-- C2 witness: on the spec's example state, removal yields
`"before X after"`, returns `true`, and leaves the parser (and hence all
queries) exactly as before. -/
theorem C2_removal_witness :
    (Parser.acceptDefaultText exParserResolved exEditor).1 = true ∧
    (Parser.acceptDefaultText exParserResolved exEditor).2.1 = exParserResolved ∧
    (Parser.acceptDefaultText exParserResolved exEditor).2.2.content =
      "before X after".toList := by
  obtain ⟨a, b, cc⟩ := C2_removal_keeps_content_amended exParserResolved exEditor exTag
    rfl (by decide) (by decide) (by decide)
  refine ⟨a, b, ?_⟩
  rw [cc]
  decide

/-- C3: the scan-origin rule.  Over a buffer with a unique region whose
opening delimiter sits at `p` and closing delimiter at `c`: (1) a forward
parse whose selection ends exactly at `p` finds the region — so the
scanner tests offset `selTo` itself first; (2) a forward parse whose
selection ends at `p + 1` misses it — so no offset below `selTo` is
tested; (3) a backward parse with selection starting at `c + 1` finds the
region — so offset `selFrom - 1` is tested; (4) a backward parse with
selection starting at `c` misses it — so no offset at or above `selFrom`
is tested.  Together: forward scans start exactly at the selection end,
backward scans exactly one before the selection start. -/
theorem C3_scan_origin :
    (∀ (pr : Parser) (e : Editor) (p c : Nat),
      UniqueRegion pr.openingDelimiter pr.closingDelimiter e.content p c →
      e.selTo = p →
      (Parser.parse pr e true false).1 = true ∧
        (Parser.parse pr e true false).2.1.getTagPosition =
          some ((p : Int), (c : Int) + pr.closingDelimiter.length)) ∧
    (∀ (pr : Parser) (e : Editor) (p c : Nat),
      UniqueRegion pr.openingDelimiter pr.closingDelimiter e.content p c →
      e.selTo = p + 1 →
      (Parser.parse pr e true false).1 = false) ∧
    (∀ (pr : Parser) (e : Editor) (p c : Nat),
      UniqueRegion pr.openingDelimiter pr.closingDelimiter e.content p c →
      e.selFrom = c + 1 →
      (Parser.parse pr e false false).1 = true ∧
        (Parser.parse pr e false false).2.1.getTagPosition =
          some ((p : Int), (c : Int) + pr.closingDelimiter.length)) ∧
    (∀ (pr : Parser) (e : Editor) (p c : Nat),
      UniqueRegion pr.openingDelimiter pr.closingDelimiter e.content p c →
      e.selFrom = c →
      (Parser.parse pr e false false).1 = false) := by
  refine ⟨?_, ?_, ?_, ?_⟩
  · intro pr e p c hU hsel
    rw [parse_forward_findsUnique hU (by omega)]
    exact ⟨rfl, by simp [Parser.getTagPosition, singleTag]⟩
  · intro pr e p c hU hsel
    exact (parse_forward_missUnique hU (by omega)).1
  · intro pr e p c hU hsel
    rw [parse_backward_findsUnique hU (by omega)]
    exact ⟨rfl, by simp [Parser.getTagPosition, singleTag]⟩
  · intro pr e p c hU hsel
    exact (parse_backward_missUnique hU (by omega)).1

/-- C3 witness: on `"a[x]b"` with delimiters `[` / `]` (region at
offsets 1..4): a forward parse with selection end 1 finds it, with
selection end 2 misses it; a backward parse with selection start 4 finds
it, with selection start 3 misses it. -/
theorem C3_scan_origin_witness :
    (Parser.parse ⟨"[".toList, "]".toList, none, false⟩ ⟨"a[x]b".toList, 0, 1⟩ true
      false).1 = true ∧
    (Parser.parse ⟨"[".toList, "]".toList, none, false⟩ ⟨"a[x]b".toList, 0, 2⟩ true
      false).1 = false ∧
    (Parser.parse ⟨"[".toList, "]".toList, none, false⟩ ⟨"a[x]b".toList, 4, 4⟩ false
      false).1 = true ∧
    (Parser.parse ⟨"[".toList, "]".toList, none, false⟩ ⟨"a[x]b".toList, 3, 3⟩ false
      false).1 = false := by
  refine ⟨(C3_scan_origin.1 _ _ 1 3 (by decide) rfl).1,
    C3_scan_origin.2.1 _ _ 1 3 (by decide) rfl,
    (C3_scan_origin.2.2.1 _ _ 1 3 (by decide) rfl).1,
    C3_scan_origin.2.2.2 _ _ 1 3 (by decide) rfl⟩

/-- C6: over a buffer whose only opening-delimiter occurrence is at `p`
and whose only closing-delimiter occurrence is at `c ≥ p + |O|`, a
forward parse starting from any offset before `p` returns `true` with
`parentStart = p` and `parentEnd = c + |C|` (the offset just past the
closing delimiter). -/
theorem C6_single_region_forward (pr : Parser) (e : Editor) (p c : Nat)
    (hU : UniqueRegion pr.openingDelimiter pr.closingDelimiter e.content p c)
    (hsel : e.selTo < p) :
    (Parser.parse pr e true false).1 = true ∧
      (Parser.parse pr e true false).2.1.getTagPosition =
        some ((p : Int), (c : Int) + pr.closingDelimiter.length) := by
  rw [parse_forward_findsUnique hU (by omega)]
  exact ⟨rfl, by simp [Parser.getTagPosition, singleTag]⟩

/-- C6 witness: on `"a[x]b"` with `[` / `]`, a forward parse from offset 0
resolves the region with `parentStart = 1` and `parentEnd = 4`. -/
theorem C6_single_region_forward_witness :
    (Parser.parse ⟨"[".toList, "]".toList, none, false⟩ ⟨"a[x]b".toList, 0, 0⟩ true
      false).1 = true ∧
    (Parser.parse ⟨"[".toList, "]".toList, none, false⟩ ⟨"a[x]b".toList, 0, 0⟩ true
      false).2.1.getTagPosition = some (1, 4) := by
  obtain ⟨h1, h2⟩ := C6_single_region_forward ⟨"[".toList, "]".toList, none, false⟩
    ⟨"a[x]b".toList, 0, 0⟩ 1 3 (by decide) (by decide)
  refine ⟨h1, ?_⟩
  rw [h2]
  decide

/-- C7: over a buffer with two nested regions in the shape `O O C C`
(opening delimiters exactly at `p1 < p2`, closing delimiters exactly at
`c1 < c2`, `p2 < c1`), a forward parse from offset 0 resolves the *outer*
region: `parentStart = p1` and `parentEnd = c2 + |C|`. -/
theorem C7_nested_outer_region (pr : Parser) (e : Editor) (p1 p2 c1 c2 : Nat)
    (hN : NestedRegions pr.openingDelimiter pr.closingDelimiter e.content p1 p2 c1 c2)
    (hsel : e.selTo = 0) :
    (Parser.parse pr e true false).1 = true ∧
      (Parser.parse pr e true false).2.1.getTagPosition =
        some ((p1 : Int), (c2 : Int) + pr.closingDelimiter.length) := by
  obtain ⟨hO, hC, hOm1, hOm2, hCm1, hCm2, h12, h2c, hcc, hOn, hCn⟩ := hN
  have hOonly : ∀ k : Int, 0 ≤ k → startsWithAt e.content pr.openingDelimiter k = true →
      k = (p1 : Int) ∨ k = (p2 : Int) := by
    refine onlyAt2_of_bounded hO _ _ ?_
    intro n hn hs
    have := hOn n hn hs
    omega
  have hConly : ∀ k : Int, 0 ≤ k → startsWithAt e.content pr.closingDelimiter k = true →
      k = (c1 : Int) ∨ k = (c2 : Int) := by
    refine onlyAt2_of_bounded hC _ _ ?_
    intro n hn hs
    have := hCn n hn hs
    omega
  have hloop := @parseLoop_nestedF pr.openingDelimiter pr.closingDelimiter e.content
    pr.tagStruct hO hC (p1 : Int) (p2 : Int) (c1 : Int) (c2 : Int)
    (by omega : (0 : Int) ≤ (p1 : Int)) (by omega) (by omega) (by omega)
    hOm1 hOm2 hCm1 hCm2 hOonly hConly ((e.selTo : Nat) : Int) (by omega) (by omega)
  have hscan : pr.scan e true = (true, some
      (singleTag pr.openingDelimiter pr.closingDelimiter e.content (p1 : Int) (c2 : Int))) := by
    rw [scan_forward]
    exact hloop
  rw [parse_scanFound hscan]
  exact ⟨rfl, by simp [Parser.getTagPosition, singleTag]⟩

/-- C7 witness: on `"[[x]]"` with `[` / `]`, a forward parse from offset 0
resolves the outer region `0..5`. -/
theorem C7_nested_outer_region_witness :
    (Parser.parse ⟨"[".toList, "]".toList, none, false⟩ ⟨"[[x]]".toList, 0, 0⟩ true
      false).1 = true ∧
    (Parser.parse ⟨"[".toList, "]".toList, none, false⟩ ⟨"[[x]]".toList, 0, 0⟩ true
      false).2.1.getTagPosition = some (0, 5) := by
  obtain ⟨h1, h2⟩ := C7_nested_outer_region ⟨"[".toList, "]".toList, none, false⟩
    ⟨"[[x]]".toList, 0, 0⟩ 0 1 3 4 (by decide) rfl
  refine ⟨h1, ?_⟩
  rw [h2]
  decide

/-- C8 counterexample: on `"a[x]b"` with `[` / `]` (wrap enabled), a
successful forward parse followed by `highlightTag` (selection 1..4) and
then a backward parse returns `false` — not `true` as the claim states:
the backward scan origin `selFrom - 1 = 0` lies before the region, so the
region is not re-found. -/
theorem C8_roundtrip_counterexample :
    (Parser.parse ⟨"[".toList, "]".toList, none, true⟩ ⟨"a[x]b".toList, 0, 0⟩ true
      false).1 = true ∧
    (Parser.parse
      (Parser.parse ⟨"[".toList, "]".toList, none, true⟩ ⟨"a[x]b".toList, 0, 0⟩ true
        false).2.1
      ((Parser.parse ⟨"[".toList, "]".toList, none, true⟩ ⟨"a[x]b".toList, 0, 0⟩ true
        false).2.1.highlightTag
        (Parser.parse ⟨"[".toList, "]".toList, none, true⟩ ⟨"a[x]b".toList, 0, 0⟩ true
          false).2.2).2
      false false).1 = false := by
  constructor
  · simp [Parser.parse, Parser.scan, parseLoop, parseStep, loopCond, startsWithAt,
      jsSubstring, Editor.setCursor]
  · simp [Parser.parse, Parser.scan, parseLoop, parseStep, loopCond, startsWithAt,
      jsSubstring, Editor.setCursor, Parser.highlightTag, Editor.setSelection]

/-- C8 (amended): over a buffer with a unique region, after a successful
forward parse and `highlightTag` (selection spanning
`parentStart..parentEnd`), a subsequent backward parse returns `false`
and clears the match state: by the scan-origin rule the backward scan
starts at `parentStart - 1`, before the region, and never re-finds it. -/
theorem C8_backward_after_highlight_amended (pr : Parser) (e : Editor) (p c : Nat)
    (hU : UniqueRegion pr.openingDelimiter pr.closingDelimiter e.content p c)
    (hsel : e.selTo ≤ p) :
    (Parser.parse pr e true false).1 = true ∧
    ((Parser.parse pr e true false).2.1.highlightTag e).1 = true ∧
    (Parser.parse (Parser.parse pr e true false).2.1
      ((Parser.parse pr e true false).2.1.highlightTag e).2 false false).1 = false ∧
    (Parser.parse (Parser.parse pr e true false).2.1
      ((Parser.parse pr e true false).2.1.highlightTag e).2 false false).2.1.tagStruct =
      none := by
  rw [parse_forward_findsUnique hU hsel]
  have hOlen : 0 < pr.openingDelimiter.length := List.length_pos.mpr hU.1
  have hpc : p + pr.openingDelimiter.length ≤ c := hU.2.2.2.2.1
  have heq : (({ pr with tagStruct := some (singleTag pr.openingDelimiter pr.closingDelimiter e.content (p : Int) (c : Int)) } : Parser).highlightTag e).2 = e.setSelection (p : Int) ((c : Int) + pr.closingDelimiter.length) := by
    simp [Parser.highlightTag, singleTag]
  have hsel2 : (e.setSelection (p : Int) ((c : Int) + pr.closingDelimiter.length)).selFrom ≤ c := by
    simp only [Editor.setSelection]
    omega
  have hmiss := @parse_backward_missUnique { pr with tagStruct := some (singleTag pr.openingDelimiter pr.closingDelimiter e.content (p : Int) (c : Int)) } (e.setSelection (p : Int) ((c : Int) + pr.closingDelimiter.length)) p c hU hsel2
  refine ⟨rfl, by simp [Parser.highlightTag], ?_, ?_⟩
  · dsimp only
    rw [heq]
    exact hmiss.1
  · dsimp only
    rw [heq]
    exact hmiss.2

/-- C8 witness (for the amended claim): the concrete pipeline of the
counterexample, with the cleared match state made explicit. -/
theorem C8_backward_after_highlight_witness :
    (Parser.parse ⟨"[".toList, "]".toList, none, false⟩ ⟨"a[x]b".toList, 0, 0⟩ true
      false).1 = true ∧
    (Parser.parse
      (Parser.parse ⟨"[".toList, "]".toList, none, false⟩ ⟨"a[x]b".toList, 0, 0⟩ true
        false).2.1
      ((Parser.parse ⟨"[".toList, "]".toList, none, false⟩ ⟨"a[x]b".toList, 0, 0⟩ true
        false).2.1.highlightTag ⟨"a[x]b".toList, 0, 0⟩).2
      false false).1 = false ∧
    (Parser.parse
      (Parser.parse ⟨"[".toList, "]".toList, none, false⟩ ⟨"a[x]b".toList, 0, 0⟩ true
        false).2.1
      ((Parser.parse ⟨"[".toList, "]".toList, none, false⟩ ⟨"a[x]b".toList, 0, 0⟩ true
        false).2.1.highlightTag ⟨"a[x]b".toList, 0, 0⟩).2
      false false).2.1.tagStruct = none := by
  obtain ⟨h1, h2, h3, h4⟩ := C8_backward_after_highlight_amended
    ⟨"[".toList, "]".toList, none, false⟩ ⟨"a[x]b".toList, 0, 0⟩ 1 3 (by decide) (by decide)
  exact ⟨h1, h3, h4⟩
